import Mathlib

/-!
Verification of the near-sdk storage-vector iterator protocol
(`near-sdk/src/store/vec/iter.rs`), the `Ownable` access-control helper
(`near-contract-standards/src/access/ownable.rs`), and the promise-result
helpers (`near-sdk/src/utils/mod.rs`), by a shallow embedding in Lean 4.

Machine integers: the iterator range holds `u32` cursors and takes `usize`
skip counts.  We model them as `Nat`.  Rust's `Step::forward_checked` /
`backward_checked` fail exactly when the checked arithmetic leaves the
type's domain, and in both uses that failure funnels into the same branch
the ordinary comparison failure does, so the `Nat` model (where `+` is
exact and `-` is truncated) computes the same results branch for branch.
-/

namespace NearSdk

/-- Modelled from the spec: the Vector interface the iterators resolve
through (spec 4.4).  `Vector<T>` itself is outside the provided sources;
per the spec it exposes `len() -> u32` and `get(i)`/`get_mut(i) ->
Option` over the same domain, so one resolver function models both
`get` and `get_mut` (they resolve the same logical slot; only
dirty-marking, which the iterator claims do not observe, differs). -/
structure Vec (T : Type) where
  len : Nat
  get : Nat → Option T

/-- Modelled from the spec: the fatal index-out-of-bounds abort message
(spec 4.5 and 7); the constant is declared in `store/vec/mod.rs`, outside
the provided sources, and only its identity matters here. -/
def ERR_INDEX_OUT_OF_BOUNDS : String := "Index out of bounds"

/-- Rust `core::ops::Range<u32>`: the iterator's captured index window
`[start, stop)` (`end` in Rust; renamed, `end` is a Lean keyword). -/
structure Rng where
  start : Nat
  stop : Nat
deriving DecidableEq, Repr

/-- Rust `Range` as an iterator: `nth(n)`.  If `start + n` is in range,
the cursor advances past it and `start + n` is produced; otherwise the
range collapses to empty (`start := end`) and nothing is produced.
Returns the produced element together with the updated range. -/
def Rng.nth (r : Rng) (n : Nat) : Option Nat × Rng :=
  if r.start + n < r.stop then
    (some (r.start + n), { start := r.start + n + 1, stop := r.stop })
  else
    (none, { start := r.stop, stop := r.stop })

/-- Rust `Range` as a double-ended iterator: `nth_back(n)`.  If
`end - n - 1` is still above `start`, the back cursor moves down to it
and it is produced; otherwise the range collapses (`end := start`). -/
def Rng.nthBack (r : Rng) (n : Nat) : Option Nat × Rng :=
  if r.start < r.stop - n then
    (some (r.stop - n - 1), { start := r.start, stop := r.stop - n - 1 })
  else
    (none, { start := r.start, stop := r.start })

/-- Rust `Range::len` via `size_hint`: `end - start`, saturating at 0. -/
def Rng.len (r : Rng) : Nat := r.stop - r.start

/-- Outcome of one iterator call: a produced value, exhaustion (`None`
from the range), or a fatal abort (`env::panic_str`). -/
inductive Step (T : Type) where
  | yielded (val : T)
  | exhausted
  | panicked (msg : String)
deriving DecidableEq, Repr

/-- Result of one iterator call in the embedding: the outcome, the
iterator state afterwards, and the list of logical indices the call
resolved through the Vector (arguments of `vec.get` / `vec.get_mut`),
in order. -/
structure StepOut (I : Type) (T : Type) where
  res : Step T
  it : I
  resolved : List Nat
deriving DecidableEq, Repr

/-- `Iter<'a, T>`: shared-reference iterator over a stored vector
(`iter.rs` lines 7-17). -/
structure Iter (T : Type) where
  vec : Vec T
  range : Rng

/-- `Iter::new`: captures the range `0..vec.len()` (`iter.rs` 23-25). -/
def Iter.new {T : Type} (vec : Vec T) : Iter T :=
  { vec := vec, range := { start := 0, stop := vec.len } }

/-- `Iter::remaining` (`iter.rs` 28-30). -/
def Iter.remaining {T : Type} (it : Iter T) : Nat := it.range.len

/-- `Iter::size_hint` (`iter.rs` 43-46). -/
def Iter.sizeHint {T : Type} (it : Iter T) : Nat × Option Nat :=
  (it.remaining, some it.remaining)

/-- `Iter::count` (`iter.rs` 48-50). -/
def Iter.count {T : Type} (it : Iter T) : Nat := it.remaining

/-- `Iter::nth` (`iter.rs` 52-55): draw an index from the captured range;
`None` from the range is exhaustion, a resolved index whose lookup fails
aborts with `ERR_INDEX_OUT_OF_BOUNDS`. -/
def Iter.nth {T : Type} (it : Iter T) (n : Nat) : StepOut (Iter T) T :=
  match Rng.nth it.range n with
  | (none, r) => { res := .exhausted, it := { it with range := r }, resolved := [] }
  | (some idx, r) =>
    match it.vec.get idx with
    | some v => { res := .yielded v, it := { it with range := r }, resolved := [idx] }
    | none =>
      { res := .panicked ERR_INDEX_OUT_OF_BOUNDS, it := { it with range := r },
        resolved := [idx] }

/-- `Iter::next` (`iter.rs` 39-41): defined as `nth(0)`. -/
def Iter.next {T : Type} (it : Iter T) : StepOut (Iter T) T := it.nth 0

/-- `Iter::nth_back` (`iter.rs` 69-72). -/
def Iter.nthBack {T : Type} (it : Iter T) (n : Nat) : StepOut (Iter T) T :=
  match Rng.nthBack it.range n with
  | (none, r) => { res := .exhausted, it := { it with range := r }, resolved := [] }
  | (some idx, r) =>
    match it.vec.get idx with
    | some v => { res := .yielded v, it := { it with range := r }, resolved := [idx] }
    | none =>
      { res := .panicked ERR_INDEX_OUT_OF_BOUNDS, it := { it with range := r },
        resolved := [idx] }

/-- `Iter::next_back` (`iter.rs` 65-67): defined as `nth_back(0)`. -/
def Iter.nextBack {T : Type} (it : Iter T) : StepOut (Iter T) T := it.nthBack 0

/-- `IterMut<'a, T>`: exclusive-reference iterator (`iter.rs` 75-85). -/
structure IterMut (T : Type) where
  vec : Vec T
  range : Rng

/-- `IterMut::new` (`iter.rs` 92-95): captures `0..vec.len()`. -/
def IterMut.new {T : Type} (vec : Vec T) : IterMut T :=
  { vec := vec, range := { start := 0, stop := vec.len } }

/-- `IterMut::remaining` (`iter.rs` 97-100). -/
def IterMut.remaining {T : Type} (it : IterMut T) : Nat := it.range.len

/-- `IterMut::size_hint` (`iter.rs` 128-131). -/
def IterMut.sizeHint {T : Type} (it : IterMut T) : Nat × Option Nat :=
  (it.remaining, some it.remaining)

/-- `IterMut::count` (`iter.rs` 133-135). -/
def IterMut.count {T : Type} (it : IterMut T) : Nat := it.remaining

/-- `IterMut::get_mut` (`iter.rs` 107-115): resolves `vec.get_mut(at)`
and (unsafely, in the source) extends the lifetime; in the model it is
the slot lookup itself. -/
def IterMut.getMut {T : Type} (it : IterMut T) (at_ : Nat) : Option T :=
  it.vec.get at_

/-- `IterMut::nth` (`iter.rs` 137-140). -/
def IterMut.nth {T : Type} (it : IterMut T) (n : Nat) : StepOut (IterMut T) T :=
  match Rng.nth it.range n with
  | (none, r) => { res := .exhausted, it := { it with range := r }, resolved := [] }
  | (some idx, r) =>
    match it.getMut idx with
    | some v => { res := .yielded v, it := { it with range := r }, resolved := [idx] }
    | none =>
      { res := .panicked ERR_INDEX_OUT_OF_BOUNDS, it := { it with range := r },
        resolved := [idx] }

/-- `IterMut::next` (`iter.rs` 124-126): defined as `nth(0)`. -/
def IterMut.next {T : Type} (it : IterMut T) : StepOut (IterMut T) T := it.nth 0

/-- `IterMut::nth_back` (`iter.rs` 154-157). -/
def IterMut.nthBack {T : Type} (it : IterMut T) (n : Nat) : StepOut (IterMut T) T :=
  match Rng.nthBack it.range n with
  | (none, r) => { res := .exhausted, it := { it with range := r }, resolved := [] }
  | (some idx, r) =>
    match it.getMut idx with
    | some v => { res := .yielded v, it := { it with range := r }, resolved := [idx] }
    | none =>
      { res := .panicked ERR_INDEX_OUT_OF_BOUNDS, it := { it with range := r },
        resolved := [idx] }

/-- `IterMut::next_back` (`iter.rs` 150-152): defined as `nth_back(0)`. -/
def IterMut.nextBack {T : Type} (it : IterMut T) : StepOut (IterMut T) T := it.nthBack 0

/-- One call of the iterator protocol. -/
inductive IterCall where
  | next
  | nextBack
  | nth (n : Nat)
  | nthBack (n : Nat)
deriving DecidableEq, Repr

/-- Dispatch one call on `Iter`. -/
def Iter.step {T : Type} (it : Iter T) : IterCall → StepOut (Iter T) T
  | .next => it.next
  | .nextBack => it.nextBack
  | .nth n => it.nth n
  | .nthBack n => it.nthBack n

/-- Dispatch one call on `IterMut`. -/
def IterMut.step {T : Type} (it : IterMut T) : IterCall → StepOut (IterMut T) T
  | .next => it.next
  | .nextBack => it.nextBack
  | .nth n => it.nth n
  | .nthBack n => it.nthBack n

/-- Trace of a finite call sequence on `Iter`: per-call outcomes, the
concatenated list of resolved indices, and the final iterator state. -/
def Iter.run {T : Type} (it : Iter T) : List IterCall → List (Step T) × List Nat × Iter T
  | [] => ([], [], it)
  | c :: cs =>
    let o := it.step c
    let (rs, is, itF) := Iter.run o.it cs
    (o.res :: rs, o.resolved ++ is, itF)

/-- Trace of a finite call sequence on `IterMut`. -/
def IterMut.run {T : Type} (it : IterMut T) :
    List IterCall → List (Step T) × List Nat × IterMut T
  | [] => ([], [], it)
  | c :: cs =>
    let o := it.step c
    let (rs, is, itF) := IterMut.run o.it cs
    (o.res :: rs, o.resolved ++ is, itF)

/-- The range operation a call performs, independent of the element type. -/
def IterCall.rngStep (c : IterCall) (r : Rng) : Option Nat × Rng :=
  match c with
  | .next => r.nth 0
  | .nextBack => r.nthBack 0
  | .nth n => r.nth n
  | .nthBack n => r.nthBack n

/-! ### Range lemmas: the captured window only shrinks, and every produced
index lies in the old window but outside the new one. -/

theorem Rng.nth_shrink (r : Rng) (n i : Nat)
    (h1 : (r.nth n).2.start ≤ i) (h2 : i < (r.nth n).2.stop) :
    r.start ≤ i ∧ i < r.stop := by
  by_cases h : r.start + n < r.stop <;> simp [Rng.nth, h] at h1 h2 <;> omega

theorem Rng.nthBack_shrink (r : Rng) (n i : Nat)
    (h1 : (r.nthBack n).2.start ≤ i) (h2 : i < (r.nthBack n).2.stop) :
    r.start ≤ i ∧ i < r.stop := by
  by_cases h : r.start < r.stop - n <;> simp [Rng.nthBack, h] at h1 h2 <;> omega

theorem Rng.nth_produced (r : Rng) (n idx : Nat) (h : (r.nth n).1 = some idx) :
    (r.start ≤ idx ∧ idx < r.stop) ∧
      ¬((r.nth n).2.start ≤ idx ∧ idx < (r.nth n).2.stop) := by
  by_cases hc : r.start + n < r.stop <;> simp [Rng.nth, hc] at h ⊢ <;> omega

theorem Rng.nthBack_produced (r : Rng) (n idx : Nat) (h : (r.nthBack n).1 = some idx) :
    (r.start ≤ idx ∧ idx < r.stop) ∧
      ¬((r.nthBack n).2.start ≤ idx ∧ idx < (r.nthBack n).2.stop) := by
  by_cases hc : r.start < r.stop - n <;> simp [Rng.nthBack, hc] at h ⊢ <;> omega

theorem IterCall.rngStep_shrink (c : IterCall) (r : Rng) (i : Nat)
    (h1 : (c.rngStep r).2.start ≤ i) (h2 : i < (c.rngStep r).2.stop) :
    r.start ≤ i ∧ i < r.stop := by
  cases c <;>
    first
      | exact Rng.nth_shrink r _ i h1 h2
      | exact Rng.nthBack_shrink r _ i h1 h2

theorem IterCall.rngStep_produced (c : IterCall) (r : Rng) (idx : Nat)
    (h : (c.rngStep r).1 = some idx) :
    (r.start ≤ idx ∧ idx < r.stop) ∧
      ¬((c.rngStep r).2.start ≤ idx ∧ idx < (c.rngStep r).2.stop) := by
  cases c <;>
    first
      | exact Rng.nth_produced r _ idx h
      | exact Rng.nthBack_produced r _ idx h

/-! ### Step characterization: every call's state update and resolved
indices are determined by the range operation alone. -/

theorem Iter.nth_spec {T : Type} (it : Iter T) (n : Nat) :
    (it.nth n).it = { vec := it.vec, range := (it.range.nth n).2 } ∧
      (it.nth n).resolved = (it.range.nth n).1.toList := by
  unfold Iter.nth
  rcases h : it.range.nth n with ⟨o, r⟩
  cases o with
  | none => simp
  | some idx => cases hg : it.vec.get idx <;> simp [hg]

theorem Iter.nthBack_spec {T : Type} (it : Iter T) (n : Nat) :
    (it.nthBack n).it = { vec := it.vec, range := (it.range.nthBack n).2 } ∧
      (it.nthBack n).resolved = (it.range.nthBack n).1.toList := by
  unfold Iter.nthBack
  rcases h : it.range.nthBack n with ⟨o, r⟩
  cases o with
  | none => simp
  | some idx => cases hg : it.vec.get idx <;> simp [hg]

theorem Iter.step_spec {T : Type} (it : Iter T) (c : IterCall) :
    (it.step c).it = { vec := it.vec, range := (c.rngStep it.range).2 } ∧
      (it.step c).resolved = (c.rngStep it.range).1.toList := by
  cases c <;>
    first
      | exact Iter.nth_spec it _
      | exact Iter.nthBack_spec it _

theorem IterMut.nth_spec_mut {T : Type} (it : IterMut T) (n : Nat) :
    (it.nth n).it = { vec := it.vec, range := (it.range.nth n).2 } ∧
      (it.nth n).resolved = (it.range.nth n).1.toList := by
  unfold IterMut.nth
  rcases h : it.range.nth n with ⟨o, r⟩
  cases o with
  | none => simp
  | some idx => cases hg : it.getMut idx <;> simp [hg]

theorem IterMut.nthBack_spec_mut {T : Type} (it : IterMut T) (n : Nat) :
    (it.nthBack n).it = { vec := it.vec, range := (it.range.nthBack n).2 } ∧
      (it.nthBack n).resolved = (it.range.nthBack n).1.toList := by
  unfold IterMut.nthBack
  rcases h : it.range.nthBack n with ⟨o, r⟩
  cases o with
  | none => simp
  | some idx => cases hg : it.getMut idx <;> simp [hg]

theorem IterMut.step_spec_mut {T : Type} (it : IterMut T) (c : IterCall) :
    (it.step c).it = { vec := it.vec, range := (c.rngStep it.range).2 } ∧
      (it.step c).resolved = (c.rngStep it.range).1.toList := by
  cases c <;>
    first
      | exact IterMut.nth_spec_mut it _
      | exact IterMut.nthBack_spec_mut it _

/-! ### Trace invariants: resolved indices stay inside the initial
window and are pairwise distinct. -/

theorem Iter.run_resolved_mem {T : Type} (cs : List IterCall) (it : Iter T) (i : Nat)
    (h : i ∈ (Iter.run it cs).2.1) : it.range.start ≤ i ∧ i < it.range.stop := by
  induction cs generalizing it with
  | nil => simp [Iter.run] at h
  | cons c cs ih =>
    rw [Iter.run] at h
    rcases List.mem_append.mp h with hl | hr
    · rw [(Iter.step_spec it c).2] at hl
      rcases ho : (c.rngStep it.range).1 with _ | idx <;> rw [ho] at hl <;>
        simp at hl
      exact hl ▸ (IterCall.rngStep_produced c it.range idx ho).1
    · have := ih (it.step c).it hr
      rw [(Iter.step_spec it c).1] at this
      exact IterCall.rngStep_shrink c it.range i this.1 this.2

theorem Iter.run_resolved_nodup {T : Type} (cs : List IterCall) (it : Iter T) :
    (Iter.run it cs).2.1.Nodup := by
  induction cs generalizing it with
  | nil => simp [Iter.run]
  | cons c cs ih =>
    rw [Iter.run]
    refine List.nodup_append.mpr ⟨?_, ih _, ?_⟩
    · rw [(Iter.step_spec it c).2]
      rcases (c.rngStep it.range).1 with _ | idx <;> simp
    · intro a ha hb
      rw [(Iter.step_spec it c).2] at ha
      rcases ho : (c.rngStep it.range).1 with _ | idx <;> rw [ho] at ha <;>
        simp at ha
      have hmem := Iter.run_resolved_mem cs (it.step c).it a hb
      rw [(Iter.step_spec it c).1] at hmem
      exact (ha ▸ (IterCall.rngStep_produced c it.range idx ho).2) hmem

theorem IterMut.run_resolved_mem_mut {T : Type} (cs : List IterCall) (it : IterMut T) (i : Nat)
    (h : i ∈ (IterMut.run it cs).2.1) : it.range.start ≤ i ∧ i < it.range.stop := by
  induction cs generalizing it with
  | nil => simp [IterMut.run] at h
  | cons c cs ih =>
    rw [IterMut.run] at h
    rcases List.mem_append.mp h with hl | hr
    · rw [(IterMut.step_spec_mut it c).2] at hl
      rcases ho : (c.rngStep it.range).1 with _ | idx <;> rw [ho] at hl <;>
        simp at hl
      exact hl ▸ (IterCall.rngStep_produced c it.range idx ho).1
    · have := ih (it.step c).it hr
      rw [(IterMut.step_spec_mut it c).1] at this
      exact IterCall.rngStep_shrink c it.range i this.1 this.2

theorem IterMut.run_resolved_nodup_mut {T : Type} (cs : List IterCall) (it : IterMut T) :
    (IterMut.run it cs).2.1.Nodup := by
  induction cs generalizing it with
  | nil => simp [IterMut.run]
  | cons c cs ih =>
    rw [IterMut.run]
    refine List.nodup_append.mpr ⟨?_, ih _, ?_⟩
    · rw [(IterMut.step_spec_mut it c).2]
      rcases (c.rngStep it.range).1 with _ | idx <;> simp
    · intro a ha hb
      rw [(IterMut.step_spec_mut it c).2] at ha
      rcases ho : (c.rngStep it.range).1 with _ | idx <;> rw [ho] at ha <;>
        simp at ha
      have hmem := IterMut.run_resolved_mem_mut cs (it.step c).it a hb
      rw [(IterMut.step_spec_mut it c).1] at hmem
      exact (ha ▸ (IterCall.rngStep_produced c it.range idx ho).2) hmem

/-! ### Exhaustive front/back drains (for the iteration-order claims). -/

theorem Iter.run_replicate_next {T : Type} (k : Nat) (s : Nat) (it : Iter T)
    (v : Nat → T) (hr : it.range = { start := s, stop := s + k })
    (hv : ∀ i, s ≤ i → i < s + k → it.vec.get i = some (v i)) :
    Iter.run it (List.replicate k .next) =
      ((List.range' s k).map (fun i => Step.yielded (v i)), List.range' s k,
        { vec := it.vec, range := { start := s + k, stop := s + k } }) := by
  induction k generalizing s it with
  | zero =>
    simp only [List.replicate, Iter.run, List.range']
    rcases it with ⟨vec, r⟩
    simp at hr
    simp [hr]
  | succ k ih =>
    have hstep : it.next =
        { res := Step.yielded (v s),
          it := { vec := it.vec, range := { start := s + 1, stop := s + (k + 1) } },
          resolved := [s] } := by
      have hin : s < s + (k + 1) := by omega
      have hget : it.vec.get s = some (v s) := hv s (Nat.le_refl s) (by omega)
      simp only [Iter.next, Iter.nth, hr, Rng.nth, Nat.add_zero, if_pos hin, hget]
    rw [List.replicate_succ, Iter.run, List.range'_succ]
    have htail := ih (s + 1)
      ({ vec := it.vec, range := { start := s + 1, stop := s + (k + 1) } })
      (by simp; omega) (fun i h1 h2 => hv i (by omega) (by omega))
    simp only [Iter.step, hstep, htail]
    simp
    omega

theorem Iter.run_replicate_nextBack {T : Type} (k : Nat) (s : Nat) (it : Iter T)
    (v : Nat → T) (hr : it.range = { start := s, stop := s + k })
    (hv : ∀ i, s ≤ i → i < s + k → it.vec.get i = some (v i)) :
    Iter.run it (List.replicate k .nextBack) =
      (((List.range' s k).map (fun i => Step.yielded (v i))).reverse,
        (List.range' s k).reverse,
        { vec := it.vec, range := { start := s, stop := s } }) := by
  induction k generalizing it with
  | zero =>
    simp only [List.replicate, Iter.run, List.range']
    rcases it with ⟨vec, r⟩
    simp at hr
    simp [hr]
  | succ k ih =>
    have hstep : it.nextBack =
        { res := Step.yielded (v (s + k)),
          it := { vec := it.vec, range := { start := s, stop := s + k } },
          resolved := [s + k] } := by
      have hin : s < s + (k + 1) - 0 := by omega
      have hget : it.vec.get (s + k) = some (v (s + k)) := hv (s + k) (by omega) (by omega)
      have hidx : s + (k + 1) - 0 - 1 = s + k := by omega
      simp only [Iter.nextBack, Iter.nthBack, hr, Rng.nthBack, if_pos hin, hidx, hget]
    rw [List.replicate_succ, Iter.run, List.range'_concat]
    have htail := ih
      ({ vec := it.vec, range := { start := s, stop := s + k } })
      rfl (fun i h1 h2 => hv i h1 (by omega))
    simp only [Iter.step, hstep, htail]
    simp

/-! ### Fused behavior on an empty window: every call is a no-op
exhaustion that never consults the vector. -/

theorem Iter.step_empty {T : Type} (it : Iter T) (c : IterCall)
    (h : it.range.start = it.range.stop) :
    it.step c = { res := .exhausted, it := it, resolved := [] } := by
  rcases it with ⟨vec, s, e⟩
  simp at h
  subst h
  cases c with
  | next => simp [Iter.step, Iter.next, Iter.nth, Rng.nth]
  | nextBack => simp [Iter.step, Iter.nextBack, Iter.nthBack, Rng.nthBack]
  | nth n =>
    have hn : ¬(s + n < s) := by omega
    simp [Iter.step, Iter.nth, Rng.nth, hn]
  | nthBack n =>
    have hn : ¬(s < s - n) := by omega
    simp [Iter.step, Iter.nthBack, Rng.nthBack, hn]

theorem Iter.run_fused {T : Type} (cs : List IterCall) (it : Iter T)
    (h : it.range.start = it.range.stop) :
    Iter.run it cs = (List.replicate cs.length .exhausted, [], it) := by
  induction cs with
  | nil => simp [Iter.run]
  | cons c cs ih =>
    rw [Iter.run, Iter.step_empty it c h]
    simp [ih, List.replicate_succ]

theorem IterMut.step_empty_mut {T : Type} (it : IterMut T) (c : IterCall)
    (h : it.range.start = it.range.stop) :
    it.step c = { res := .exhausted, it := it, resolved := [] } := by
  rcases it with ⟨vec, s, e⟩
  simp at h
  subst h
  cases c with
  | next => simp [IterMut.step, IterMut.next, IterMut.nth, Rng.nth]
  | nextBack => simp [IterMut.step, IterMut.nextBack, IterMut.nthBack, Rng.nthBack]
  | nth n =>
    have hn : ¬(s + n < s) := by omega
    simp [IterMut.step, IterMut.nth, Rng.nth, hn]
  | nthBack n =>
    have hn : ¬(s < s - n) := by omega
    simp [IterMut.step, IterMut.nthBack, Rng.nthBack, hn]

theorem IterMut.run_fused_mut {T : Type} (cs : List IterCall) (it : IterMut T)
    (h : it.range.start = it.range.stop) :
    IterMut.run it cs = (List.replicate cs.length .exhausted, [], it) := by
  induction cs with
  | nil => simp [IterMut.run]
  | cons c cs ih =>
    rw [IterMut.run, IterMut.step_empty_mut it c h]
    simp [ih, List.replicate_succ]

/-! ### Exact-size accounting: a nonempty window always yields, and the
number of values produced by any next/next_back schedule is the minimum
of the schedule length and the window width. -/

/-- Whether a call outcome produced a value. -/
def Step.isYielded {T : Type} : Step T → Bool
  | .yielded _ => true
  | _ => false

/-- Number of produced values in a list of call outcomes. -/
def countYields {T : Type} (rs : List (Step T)) : Nat :=
  (rs.filter Step.isYielded).length

/-- Executable form of "every index of the window resolves to a present
value" (the Vector length invariant restricted to the window). -/
def resolvableOn {T : Type} (vec : Vec T) (r : Rng) : Bool :=
  (List.range' r.start r.len).all fun i => (vec.get i).isSome

theorem resolvableOn_iff {T : Type} (vec : Vec T) (r : Rng) :
    resolvableOn vec r = true ↔
      ∀ i, r.start ≤ i → i < r.stop → (vec.get i).isSome := by
  simp only [resolvableOn, List.all_eq_true, List.mem_range'_1, Rng.len, and_imp]
  constructor
  · intro h i h1 h2
    exact h i h1 (by omega)
  · intro h i h1 h2
    exact h i h1 (by omega)

/-- A schedule entry: `true` is a `next_back` call, `false` a `next`. -/
def dirCall (b : Bool) : IterCall := if b then .nextBack else .next

theorem Iter.next_nonempty {T : Type} (it : Iter T)
    (hse : it.range.start < it.range.stop)
    (hs : (it.vec.get it.range.start).isSome) :
    ∃ v, it.next =
      { res := .yielded v,
        it := { vec := it.vec,
                range := { start := it.range.start + 1, stop := it.range.stop } },
        resolved := [it.range.start] } := by
  obtain ⟨v, hv⟩ := Option.isSome_iff_exists.mp hs
  refine ⟨v, ?_⟩
  simp only [Iter.next, Iter.nth, Rng.nth, Nat.add_zero, if_pos hse, hv]

theorem Iter.nextBack_nonempty {T : Type} (it : Iter T)
    (hse : it.range.start < it.range.stop)
    (hs : (it.vec.get (it.range.stop - 1)).isSome) :
    ∃ v, it.nextBack =
      { res := .yielded v,
        it := { vec := it.vec,
                range := { start := it.range.start, stop := it.range.stop - 1 } },
        resolved := [it.range.stop - 1] } := by
  obtain ⟨v, hv⟩ := Option.isSome_iff_exists.mp hs
  refine ⟨v, ?_⟩
  simp only [Iter.nextBack, Iter.nthBack, Rng.nthBack, Nat.sub_zero, if_pos hse, hv]

theorem IterMut.next_nonempty_mut {T : Type} (it : IterMut T)
    (hse : it.range.start < it.range.stop)
    (hs : (it.vec.get it.range.start).isSome) :
    ∃ v, it.next =
      { res := .yielded v,
        it := { vec := it.vec,
                range := { start := it.range.start + 1, stop := it.range.stop } },
        resolved := [it.range.start] } := by
  obtain ⟨v, hv⟩ := Option.isSome_iff_exists.mp hs
  refine ⟨v, ?_⟩
  simp only [IterMut.next, IterMut.nth, IterMut.getMut, Rng.nth, Nat.add_zero,
    if_pos hse, hv]

theorem IterMut.nextBack_nonempty_mut {T : Type} (it : IterMut T)
    (hse : it.range.start < it.range.stop)
    (hs : (it.vec.get (it.range.stop - 1)).isSome) :
    ∃ v, it.nextBack =
      { res := .yielded v,
        it := { vec := it.vec,
                range := { start := it.range.start, stop := it.range.stop - 1 } },
        resolved := [it.range.stop - 1] } := by
  obtain ⟨v, hv⟩ := Option.isSome_iff_exists.mp hs
  refine ⟨v, ?_⟩
  simp only [IterMut.nextBack, IterMut.nthBack, IterMut.getMut, Rng.nthBack,
    Nat.sub_zero, if_pos hse, hv]

theorem countYields_cons {T : Type} (r : Step T) (rs : List (Step T)) :
    countYields (r :: rs) = (if r.isYielded then 1 else 0) + countYields rs := by
  by_cases h : r.isYielded <;> simp [countYields, List.filter_cons, h, Nat.add_comm]

theorem Iter.run_cons {T : Type} (it : Iter T) (c : IterCall) (cs : List IterCall) :
    Iter.run it (c :: cs) =
      ((it.step c).res :: (Iter.run (it.step c).it cs).1,
        (it.step c).resolved ++ (Iter.run (it.step c).it cs).2.1,
        (Iter.run (it.step c).it cs).2.2) := by
  rw [Iter.run]

theorem IterMut.run_cons_mut {T : Type} (it : IterMut T) (c : IterCall) (cs : List IterCall) :
    IterMut.run it (c :: cs) =
      ((it.step c).res :: (IterMut.run (it.step c).it cs).1,
        (it.step c).resolved ++ (IterMut.run (it.step c).it cs).2.1,
        (IterMut.run (it.step c).it cs).2.2) := by
  rw [IterMut.run]

theorem Iter.step_exhausts {T : Type} (it : Iter T) (c : IterCall)
    (h : it.range.stop ≤ it.range.start) :
    (it.step c).res = .exhausted ∧ (it.step c).resolved = [] ∧
      (it.step c).it.vec = it.vec ∧
      (it.step c).it.range.stop ≤ (it.step c).it.range.start := by
  rcases it with ⟨vec, s, e⟩
  simp at h
  cases c with
  | next =>
    have hn : ¬(s < e) := by omega
    simp [Iter.step, Iter.next, Iter.nth, Rng.nth, hn]
  | nextBack =>
    have hn : ¬(s < e) := by omega
    simp [Iter.step, Iter.nextBack, Iter.nthBack, Rng.nthBack, hn]
  | nth n =>
    have hn : ¬(s + n < e) := by omega
    simp [Iter.step, Iter.nth, Rng.nth, hn]
  | nthBack n =>
    have hn : ¬(s < e - n) := by omega
    simp [Iter.step, Iter.nthBack, Rng.nthBack, hn]

theorem IterMut.step_exhausts_mut {T : Type} (it : IterMut T) (c : IterCall)
    (h : it.range.stop ≤ it.range.start) :
    (it.step c).res = .exhausted ∧ (it.step c).resolved = [] ∧
      (it.step c).it.vec = it.vec ∧
      (it.step c).it.range.stop ≤ (it.step c).it.range.start := by
  rcases it with ⟨vec, s, e⟩
  simp at h
  cases c with
  | next =>
    have hn : ¬(s < e) := by omega
    simp [IterMut.step, IterMut.next, IterMut.nth, Rng.nth, hn]
  | nextBack =>
    have hn : ¬(s < e) := by omega
    simp [IterMut.step, IterMut.nextBack, IterMut.nthBack, Rng.nthBack, hn]
  | nth n =>
    have hn : ¬(s + n < e) := by omega
    simp [IterMut.step, IterMut.nth, Rng.nth, hn]
  | nthBack n =>
    have hn : ¬(s < e - n) := by omega
    simp [IterMut.step, IterMut.nthBack, Rng.nthBack, hn]

theorem Iter.run_count_yields {T : Type} (ds : List Bool) (it : Iter T)
    (h : ∀ i, it.range.start ≤ i → i < it.range.stop → (it.vec.get i).isSome) :
    countYields (Iter.run it (ds.map dirCall)).1 = min ds.length it.remaining := by
  induction ds generalizing it with
  | nil => simp [Iter.run, countYields]
  | cons d ds ih =>
    rw [List.map_cons, Iter.run_cons]
    by_cases hse : it.range.start < it.range.stop
    · cases d with
      | false =>
        obtain ⟨v, hv⟩ := Iter.next_nonempty it hse (h _ (Nat.le_refl _) hse)
        have hstep : it.step (dirCall false) = it.next := rfl
        have htail := ih
          ({ vec := it.vec,
              range := { start := it.range.start + 1, stop := it.range.stop } })
          (fun i h1 h2 => h i (Nat.le_of_succ_le h1) h2)
        rw [hstep, hv, countYields_cons]
        simp [Step.isYielded, htail, Iter.remaining, Rng.len]
        omega
      | true =>
        have hsB : it.range.start ≤ it.range.stop - 1 := by omega
        obtain ⟨v, hv⟩ := Iter.nextBack_nonempty it hse (h _ hsB (by omega))
        have hstep : it.step (dirCall true) = it.nextBack := rfl
        have htail := ih
          ({ vec := it.vec,
              range := { start := it.range.start, stop := it.range.stop - 1 } })
          (fun i h1 h2 => h i h1 (Nat.lt_of_lt_of_le h2 (Nat.sub_le _ _)))
        rw [hstep, hv, countYields_cons]
        simp [Step.isYielded, htail, Iter.remaining, Rng.len]
        omega
    · obtain ⟨hres, hresolved, hvec, hle⟩ := Iter.step_exhausts it (dirCall d) (by omega)
      rw [hres, countYields_cons,
        ih _ (fun i h1 h2 => False.elim (by omega))]
      simp [Step.isYielded, Iter.remaining, Rng.len]
      omega

theorem IterMut.run_count_yields_mut {T : Type} (ds : List Bool) (it : IterMut T)
    (h : ∀ i, it.range.start ≤ i → i < it.range.stop → (it.vec.get i).isSome) :
    countYields (IterMut.run it (ds.map dirCall)).1 = min ds.length it.remaining := by
  induction ds generalizing it with
  | nil => simp [IterMut.run, countYields]
  | cons d ds ih =>
    rw [List.map_cons, IterMut.run_cons_mut]
    by_cases hse : it.range.start < it.range.stop
    · cases d with
      | false =>
        obtain ⟨v, hv⟩ := IterMut.next_nonempty_mut it hse (h _ (Nat.le_refl _) hse)
        have hstep : it.step (dirCall false) = it.next := rfl
        have htail := ih
          ({ vec := it.vec,
              range := { start := it.range.start + 1, stop := it.range.stop } })
          (fun i h1 h2 => h i (Nat.le_of_succ_le h1) h2)
        rw [hstep, hv, countYields_cons]
        simp [Step.isYielded, htail, IterMut.remaining, Rng.len]
        omega
      | true =>
        have hsB : it.range.start ≤ it.range.stop - 1 := by omega
        obtain ⟨v, hv⟩ := IterMut.nextBack_nonempty_mut it hse (h _ hsB (by omega))
        have hstep : it.step (dirCall true) = it.nextBack := rfl
        have htail := ih
          ({ vec := it.vec,
              range := { start := it.range.start, stop := it.range.stop - 1 } })
          (fun i h1 h2 => h i h1 (Nat.lt_of_lt_of_le h2 (Nat.sub_le _ _)))
        rw [hstep, hv, countYields_cons]
        simp [Step.isYielded, htail, IterMut.remaining, Rng.len]
        omega
    · obtain ⟨hres, hresolved, hvec, hle⟩ :=
        IterMut.step_exhausts_mut it (dirCall d) (by omega)
      rw [hres, countYields_cons,
        ih _ (fun i h1 h2 => False.elim (by omega))]
      simp [Step.isYielded, IterMut.remaining, Rng.len]
      omega

/-! ### `nth` as iterated single steps. -/

theorem Rng.nth_succ_rng (r : Rng) (n : Nat) : r.nth (n + 1) = ((r.nth 0).2).nth n := by
  rcases r with ⟨s, e⟩
  by_cases h0 : s < e
  · have hr0 : (Rng.nth ⟨s, e⟩ 0).2 = ⟨s + 1, e⟩ := by simp [Rng.nth, h0]
    rw [hr0]
    by_cases h1 : s + (n + 1) < e
    · have h1' : s + 1 + n < e := by omega
      simp [Rng.nth, h1, h1', Prod.ext_iff, Rng.mk.injEq]
      all_goals omega
    · have h1' : ¬(s + 1 + n < e) := by omega
      simp [Rng.nth, h1, h1']
  · have hr0 : (Rng.nth ⟨s, e⟩ 0).2 = ⟨e, e⟩ := by simp [Rng.nth, h0]
    rw [hr0]
    have h1 : ¬(s + (n + 1) < e) := by omega
    have h2 : ¬(e + n < e) := by omega
    simp [Rng.nth, h1, h2]

theorem Rng.nthBack_succ_rng (r : Rng) (n : Nat) :
    r.nthBack (n + 1) = ((r.nthBack 0).2).nthBack n := by
  rcases r with ⟨s, e⟩
  by_cases h0 : s < e
  · have hr0 : (Rng.nthBack ⟨s, e⟩ 0).2 = ⟨s, e - 1⟩ := by simp [Rng.nthBack, h0]
    rw [hr0]
    by_cases h1 : s < e - (n + 1)
    · have h1' : s < e - 1 - n := by omega
      simp [Rng.nthBack, h1, h1', Prod.ext_iff, Rng.mk.injEq]
      all_goals omega
    · have h1' : ¬(s < e - 1 - n) := by omega
      simp [Rng.nthBack, h1, h1']
  · have hr0 : (Rng.nthBack ⟨s, e⟩ 0).2 = ⟨s, s⟩ := by simp [Rng.nthBack, h0]
    rw [hr0]
    have h1 : ¬(s < e - (n + 1)) := by omega
    have h2 : ¬(s < s - n) := by omega
    simp [Rng.nthBack, h1, h2]

theorem Iter.nth_succ {T : Type} (it : Iter T) (n : Nat) :
    it.nth (n + 1) = (it.next.it).nth n := by
  simp only [Iter.next]
  rw [(Iter.nth_spec it 0).1]
  unfold Iter.nth
  rw [Rng.nth_succ_rng]

theorem Iter.nthBack_succ {T : Type} (it : Iter T) (n : Nat) :
    it.nthBack (n + 1) = (it.nextBack.it).nthBack n := by
  simp only [Iter.nextBack]
  rw [(Iter.nthBack_spec it 0).1]
  unfold Iter.nthBack
  rw [Rng.nthBack_succ_rng]

theorem IterMut.nth_succ_mut {T : Type} (it : IterMut T) (n : Nat) :
    it.nth (n + 1) = (it.next.it).nth n := by
  simp only [IterMut.next]
  rw [(IterMut.nth_spec_mut it 0).1]
  unfold IterMut.nth
  rw [Rng.nth_succ_rng]
  rfl

theorem IterMut.nthBack_succ_mut {T : Type} (it : IterMut T) (n : Nat) :
    it.nthBack (n + 1) = (it.nextBack.it).nthBack n := by
  simp only [IterMut.nextBack]
  rw [(IterMut.nthBack_spec_mut it 0).1]
  unfold IterMut.nthBack
  rw [Rng.nthBack_succ_rng]
  rfl

theorem getLast?_cons_of_ne {α : Type} (a : α) (l : List α) (h : l ≠ []) :
    (a :: l).getLast? = l.getLast? := by
  cases l with
  | nil => exact absurd rfl h
  | cons b l => exact List.getLast?_cons_cons

theorem Iter.run_length {T : Type} (cs : List IterCall) (it : Iter T) :
    (Iter.run it cs).1.length = cs.length := by
  induction cs generalizing it with
  | nil => simp [Iter.run]
  | cons c cs ih => simp [Iter.run_cons, ih]

theorem IterMut.run_length_mut {T : Type} (cs : List IterCall) (it : IterMut T) :
    (IterMut.run it cs).1.length = cs.length := by
  induction cs generalizing it with
  | nil => simp [IterMut.run]
  | cons c cs ih => simp [IterMut.run_cons_mut, ih]

theorem Iter.run_nexts_last {T : Type} (n : Nat) (it : Iter T) :
    (Iter.run it (List.replicate (n + 1) .next)).1.getLast? = some (it.nth n).res ∧
      (Iter.run it (List.replicate (n + 1) .next)).2.2 = (it.nth n).it := by
  induction n generalizing it with
  | zero =>
    rw [List.replicate_succ, List.replicate, Iter.run_cons]
    exact ⟨rfl, rfl⟩
  | succ k ih =>
    rw [List.replicate_succ, Iter.run_cons, Iter.nth_succ]
    have hne : (Iter.run (it.step .next).it (List.replicate (k + 1) .next)).1 ≠ [] := by
      intro hc
      have := Iter.run_length (List.replicate (k + 1) .next) (it.step .next).it
      rw [hc] at this
      simp at this
    have hstep : (it.step IterCall.next).it = it.next.it := rfl
    exact ⟨by rw [getLast?_cons_of_ne _ _ hne, hstep, (ih it.next.it).1],
      by rw [hstep, (ih it.next.it).2]⟩

theorem Iter.run_nextBacks_last {T : Type} (n : Nat) (it : Iter T) :
    (Iter.run it (List.replicate (n + 1) .nextBack)).1.getLast? =
        some (it.nthBack n).res ∧
      (Iter.run it (List.replicate (n + 1) .nextBack)).2.2 = (it.nthBack n).it := by
  induction n generalizing it with
  | zero =>
    rw [List.replicate_succ, List.replicate, Iter.run_cons]
    exact ⟨rfl, rfl⟩
  | succ k ih =>
    rw [List.replicate_succ, Iter.run_cons, Iter.nthBack_succ]
    have hne : (Iter.run (it.step .nextBack).it (List.replicate (k + 1) .nextBack)).1 ≠ [] := by
      intro hc
      have := Iter.run_length (List.replicate (k + 1) .nextBack) (it.step .nextBack).it
      rw [hc] at this
      simp at this
    have hstep : (it.step IterCall.nextBack).it = it.nextBack.it := rfl
    exact ⟨by rw [getLast?_cons_of_ne _ _ hne, hstep, (ih it.nextBack.it).1],
      by rw [hstep, (ih it.nextBack.it).2]⟩

theorem IterMut.run_nexts_last_mut {T : Type} (n : Nat) (it : IterMut T) :
    (IterMut.run it (List.replicate (n + 1) .next)).1.getLast? = some (it.nth n).res ∧
      (IterMut.run it (List.replicate (n + 1) .next)).2.2 = (it.nth n).it := by
  induction n generalizing it with
  | zero =>
    rw [List.replicate_succ, List.replicate, IterMut.run_cons_mut]
    exact ⟨rfl, rfl⟩
  | succ k ih =>
    rw [List.replicate_succ, IterMut.run_cons_mut, IterMut.nth_succ_mut]
    have hne : (IterMut.run (it.step .next).it (List.replicate (k + 1) .next)).1 ≠ [] := by
      intro hc
      have := IterMut.run_length_mut (List.replicate (k + 1) .next) (it.step .next).it
      rw [hc] at this
      simp at this
    have hstep : (it.step IterCall.next).it = it.next.it := rfl
    exact ⟨by rw [getLast?_cons_of_ne _ _ hne, hstep, (ih it.next.it).1],
      by rw [hstep, (ih it.next.it).2]⟩

theorem IterMut.run_nextBacks_last_mut {T : Type} (n : Nat) (it : IterMut T) :
    (IterMut.run it (List.replicate (n + 1) .nextBack)).1.getLast? =
        some (it.nthBack n).res ∧
      (IterMut.run it (List.replicate (n + 1) .nextBack)).2.2 = (it.nthBack n).it := by
  induction n generalizing it with
  | zero =>
    rw [List.replicate_succ, List.replicate, IterMut.run_cons_mut]
    exact ⟨rfl, rfl⟩
  | succ k ih =>
    rw [List.replicate_succ, IterMut.run_cons_mut, IterMut.nthBack_succ_mut]
    have hne : (IterMut.run (it.step .nextBack).it
        (List.replicate (k + 1) .nextBack)).1 ≠ [] := by
      intro hc
      have := IterMut.run_length_mut (List.replicate (k + 1) .nextBack) (it.step .nextBack).it
      rw [hc] at this
      simp at this
    have hstep : (it.step IterCall.nextBack).it = it.nextBack.it := rfl
    exact ⟨by rw [getLast?_cons_of_ne _ _ hne, hstep, (ih it.nextBack.it).1],
      by rw [hstep, (ih it.nextBack.it).2]⟩

/-! ### No panic is possible while the window's indices all resolve. -/

theorem Iter.nth_panics {T : Type} (it : Iter T) (n idx : Nat)
    (hidx : (it.range.nth n).1 = some idx) (hget : it.vec.get idx = none) :
    (it.nth n).res = .panicked ERR_INDEX_OUT_OF_BOUNDS := by
  unfold Iter.nth
  rcases ho : it.range.nth n with ⟨o, r⟩
  rw [ho] at hidx
  simp at hidx
  subst hidx
  simp [hget]

theorem Iter.nthBack_panics {T : Type} (it : Iter T) (n idx : Nat)
    (hidx : (it.range.nthBack n).1 = some idx) (hget : it.vec.get idx = none) :
    (it.nthBack n).res = .panicked ERR_INDEX_OUT_OF_BOUNDS := by
  unfold Iter.nthBack
  rcases ho : it.range.nthBack n with ⟨o, r⟩
  rw [ho] at hidx
  simp at hidx
  subst hidx
  simp [hget]

theorem IterMut.nth_panics_mut {T : Type} (it : IterMut T) (n idx : Nat)
    (hidx : (it.range.nth n).1 = some idx) (hget : it.vec.get idx = none) :
    (it.nth n).res = .panicked ERR_INDEX_OUT_OF_BOUNDS := by
  unfold IterMut.nth
  rcases ho : it.range.nth n with ⟨o, r⟩
  rw [ho] at hidx
  simp at hidx
  subst hidx
  simp [IterMut.getMut, hget]

theorem IterMut.nthBack_panics_mut {T : Type} (it : IterMut T) (n idx : Nat)
    (hidx : (it.range.nthBack n).1 = some idx) (hget : it.vec.get idx = none) :
    (it.nthBack n).res = .panicked ERR_INDEX_OUT_OF_BOUNDS := by
  unfold IterMut.nthBack
  rcases ho : it.range.nthBack n with ⟨o, r⟩
  rw [ho] at hidx
  simp at hidx
  subst hidx
  simp [IterMut.getMut, hget]

theorem Iter.step_no_panic {T : Type} (it : Iter T) (c : IterCall)
    (h : ∀ i, it.range.start ≤ i → i < it.range.stop → (it.vec.get i).isSome)
    (msg : String) : (it.step c).res ≠ .panicked msg := by
  have key : ∀ n, ∀ useBack : Bool,
      (if useBack then (it.nthBack n).res else (it.nth n).res) ≠ .panicked msg := by
    intro n useBack
    cases useBack with
    | false =>
      simp only [if_neg Bool.false_ne_true]
      unfold Iter.nth
      rcases ho : it.range.nth n with ⟨o, r⟩
      cases o with
      | none => simp
      | some idx =>
        have hidx : (it.range.nth n).1 = some idx := by rw [ho]
        have hmem := (Rng.nth_produced it.range n idx hidx).1
        have hsome := h idx hmem.1 hmem.2
        rcases hg : it.vec.get idx with _ | v
        · rw [hg] at hsome
          simp at hsome
        · simp [hg]
    | true =>
      simp only [if_pos rfl]
      unfold Iter.nthBack
      rcases ho : it.range.nthBack n with ⟨o, r⟩
      cases o with
      | none => simp
      | some idx =>
        have hidx : (it.range.nthBack n).1 = some idx := by rw [ho]
        have hmem := (Rng.nthBack_produced it.range n idx hidx).1
        have hsome := h idx hmem.1 hmem.2
        rcases hg : it.vec.get idx with _ | v
        · rw [hg] at hsome
          simp at hsome
        · simp [hg]
  cases c with
  | next => exact key 0 false
  | nextBack => exact key 0 true
  | nth n => exact key n false
  | nthBack n => exact key n true

theorem IterMut.step_no_panic_mut {T : Type} (it : IterMut T) (c : IterCall)
    (h : ∀ i, it.range.start ≤ i → i < it.range.stop → (it.vec.get i).isSome)
    (msg : String) : (it.step c).res ≠ .panicked msg := by
  have key : ∀ n, ∀ useBack : Bool,
      (if useBack then (it.nthBack n).res else (it.nth n).res) ≠ .panicked msg := by
    intro n useBack
    cases useBack with
    | false =>
      simp only [if_neg Bool.false_ne_true]
      unfold IterMut.nth
      rcases ho : it.range.nth n with ⟨o, r⟩
      cases o with
      | none => simp
      | some idx =>
        have hidx : (it.range.nth n).1 = some idx := by rw [ho]
        have hmem := (Rng.nth_produced it.range n idx hidx).1
        have hsome := h idx hmem.1 hmem.2
        rcases hg : it.vec.get idx with _ | v
        · rw [hg] at hsome
          simp at hsome
        · simp [IterMut.getMut, hg]
    | true =>
      simp only [if_pos rfl]
      unfold IterMut.nthBack
      rcases ho : it.range.nthBack n with ⟨o, r⟩
      cases o with
      | none => simp
      | some idx =>
        have hidx : (it.range.nthBack n).1 = some idx := by rw [ho]
        have hmem := (Rng.nthBack_produced it.range n idx hidx).1
        have hsome := h idx hmem.1 hmem.2
        rcases hg : it.vec.get idx with _ | v
        · rw [hg] at hsome
          simp at hsome
        · simp [IterMut.getMut, hg]
  cases c with
  | next => exact key 0 false
  | nextBack => exact key 0 true
  | nth n => exact key n false
  | nthBack n => exact key n true

theorem Iter.run_no_panic {T : Type} (cs : List IterCall) (it : Iter T)
    (h : ∀ i, it.range.start ≤ i → i < it.range.stop → (it.vec.get i).isSome) :
    ∀ r ∈ (Iter.run it cs).1, ∀ msg, r ≠ .panicked msg := by
  induction cs generalizing it with
  | nil => simp [Iter.run]
  | cons c cs ih =>
    rw [Iter.run_cons]
    intro r hr msg
    rcases List.mem_cons.mp hr with hhead | htail
    · exact hhead ▸ Iter.step_no_panic it c h msg
    · refine ih (it.step c).it ?_ r htail msg
      intro i h1 h2
      rw [(Iter.step_spec it c).1] at h1 h2
      have hmem := IterCall.rngStep_shrink c it.range i h1 h2
      have := h i hmem.1 hmem.2
      rw [(Iter.step_spec it c).1]
      exact this

theorem IterMut.run_no_panic_mut {T : Type} (cs : List IterCall) (it : IterMut T)
    (h : ∀ i, it.range.start ≤ i → i < it.range.stop → (it.vec.get i).isSome) :
    ∀ r ∈ (IterMut.run it cs).1, ∀ msg, r ≠ .panicked msg := by
  induction cs generalizing it with
  | nil => simp [IterMut.run]
  | cons c cs ih =>
    rw [IterMut.run_cons_mut]
    intro r hr msg
    rcases List.mem_cons.mp hr with hhead | htail
    · exact hhead ▸ IterMut.step_no_panic_mut it c h msg
    · refine ih (it.step c).it ?_ r htail msg
      intro i h1 h2
      rw [(IterMut.step_spec_mut it c).1] at h1 h2
      have hmem := IterCall.rngStep_shrink c it.range i h1 h2
      have := h i hmem.1 hmem.2
      rw [(IterMut.step_spec_mut it c).1]
      exact this

theorem Iter.step_panics {T : Type} (it : Iter T) (c : IterCall) (idx : Nat)
    (hidx : (c.rngStep it.range).1 = some idx) (hget : it.vec.get idx = none) :
    (it.step c).res = .panicked ERR_INDEX_OUT_OF_BOUNDS := by
  cases c with
  | next => exact Iter.nth_panics it 0 idx hidx hget
  | nextBack => exact Iter.nthBack_panics it 0 idx hidx hget
  | nth n => exact Iter.nth_panics it n idx hidx hget
  | nthBack n => exact Iter.nthBack_panics it n idx hidx hget

theorem IterMut.step_panics_mut {T : Type} (it : IterMut T) (c : IterCall) (idx : Nat)
    (hidx : (c.rngStep it.range).1 = some idx) (hget : it.vec.get idx = none) :
    (it.step c).res = .panicked ERR_INDEX_OUT_OF_BOUNDS := by
  cases c with
  | next => exact IterMut.nth_panics_mut it 0 idx hidx hget
  | nextBack => exact IterMut.nthBack_panics_mut it 0 idx hidx hget
  | nth n => exact IterMut.nth_panics_mut it n idx hidx hget
  | nthBack n => exact IterMut.nthBack_panics_mut it n idx hidx hget

/-! ### Frame property: a running iterator reads only its captured range
and the per-index resolver, never the vector's current length. -/

theorem Iter.nth_congr {T : Type} (v1 v2 : Vec T) (r : Rng) (n : Nat)
    (hg : v1.get = v2.get) :
    (Iter.nth ⟨v1, r⟩ n).res = (Iter.nth ⟨v2, r⟩ n).res ∧
      (Iter.nth ⟨v1, r⟩ n).resolved = (Iter.nth ⟨v2, r⟩ n).resolved := by
  unfold Iter.nth
  rcases ho : Rng.nth r n with ⟨o, r2⟩
  cases o with
  | none => exact ⟨rfl, rfl⟩
  | some idx =>
    simp only [hg]
    rcases v2.get idx with _ | v <;> exact ⟨rfl, rfl⟩

theorem Iter.nthBack_congr {T : Type} (v1 v2 : Vec T) (r : Rng) (n : Nat)
    (hg : v1.get = v2.get) :
    (Iter.nthBack ⟨v1, r⟩ n).res = (Iter.nthBack ⟨v2, r⟩ n).res ∧
      (Iter.nthBack ⟨v1, r⟩ n).resolved = (Iter.nthBack ⟨v2, r⟩ n).resolved := by
  unfold Iter.nthBack
  rcases ho : Rng.nthBack r n with ⟨o, r2⟩
  cases o with
  | none => exact ⟨rfl, rfl⟩
  | some idx =>
    simp only [hg]
    rcases v2.get idx with _ | v <;> exact ⟨rfl, rfl⟩

theorem Iter.step_congr {T : Type} (v1 v2 : Vec T) (r : Rng) (c : IterCall)
    (hg : v1.get = v2.get) :
    (Iter.step ⟨v1, r⟩ c).res = (Iter.step ⟨v2, r⟩ c).res ∧
      (Iter.step ⟨v1, r⟩ c).resolved = (Iter.step ⟨v2, r⟩ c).resolved := by
  cases c with
  | next => exact Iter.nth_congr v1 v2 r 0 hg
  | nextBack => exact Iter.nthBack_congr v1 v2 r 0 hg
  | nth n => exact Iter.nth_congr v1 v2 r n hg
  | nthBack n => exact Iter.nthBack_congr v1 v2 r n hg

theorem IterMut.nth_congr_mut {T : Type} (v1 v2 : Vec T) (r : Rng) (n : Nat)
    (hg : v1.get = v2.get) :
    (IterMut.nth ⟨v1, r⟩ n).res = (IterMut.nth ⟨v2, r⟩ n).res ∧
      (IterMut.nth ⟨v1, r⟩ n).resolved = (IterMut.nth ⟨v2, r⟩ n).resolved := by
  unfold IterMut.nth
  rcases ho : Rng.nth r n with ⟨o, r2⟩
  cases o with
  | none => exact ⟨rfl, rfl⟩
  | some idx =>
    simp only [IterMut.getMut, hg]
    rcases v2.get idx with _ | v <;> exact ⟨rfl, rfl⟩

theorem IterMut.nthBack_congr_mut {T : Type} (v1 v2 : Vec T) (r : Rng) (n : Nat)
    (hg : v1.get = v2.get) :
    (IterMut.nthBack ⟨v1, r⟩ n).res = (IterMut.nthBack ⟨v2, r⟩ n).res ∧
      (IterMut.nthBack ⟨v1, r⟩ n).resolved = (IterMut.nthBack ⟨v2, r⟩ n).resolved := by
  unfold IterMut.nthBack
  rcases ho : Rng.nthBack r n with ⟨o, r2⟩
  cases o with
  | none => exact ⟨rfl, rfl⟩
  | some idx =>
    simp only [IterMut.getMut, hg]
    rcases v2.get idx with _ | v <;> exact ⟨rfl, rfl⟩

theorem IterMut.step_congr_mut {T : Type} (v1 v2 : Vec T) (r : Rng) (c : IterCall)
    (hg : v1.get = v2.get) :
    (IterMut.step ⟨v1, r⟩ c).res = (IterMut.step ⟨v2, r⟩ c).res ∧
      (IterMut.step ⟨v1, r⟩ c).resolved = (IterMut.step ⟨v2, r⟩ c).resolved := by
  cases c with
  | next => exact IterMut.nth_congr_mut v1 v2 r 0 hg
  | nextBack => exact IterMut.nthBack_congr_mut v1 v2 r 0 hg
  | nth n => exact IterMut.nth_congr_mut v1 v2 r n hg
  | nthBack n => exact IterMut.nthBack_congr_mut v1 v2 r n hg

theorem Iter.run_congr {T : Type} (cs : List IterCall) (v1 v2 : Vec T) (r : Rng)
    (hg : v1.get = v2.get) :
    (Iter.run ⟨v1, r⟩ cs).1 = (Iter.run ⟨v2, r⟩ cs).1 ∧
      (Iter.run ⟨v1, r⟩ cs).2.1 = (Iter.run ⟨v2, r⟩ cs).2.1 ∧
      (Iter.run ⟨v1, r⟩ cs).2.2.range = (Iter.run ⟨v2, r⟩ cs).2.2.range := by
  induction cs generalizing r with
  | nil => exact ⟨rfl, rfl, rfl⟩
  | cons c cs ih =>
    rw [Iter.run_cons, Iter.run_cons]
    have h1 := (Iter.step_spec ⟨v1, r⟩ c).1
    have h2 := (Iter.step_spec ⟨v2, r⟩ c).1
    have hc := Iter.step_congr v1 v2 r c hg
    have htail := ih (c.rngStep r).2
    rw [h1, h2]
    exact ⟨by rw [hc.1, htail.1], by rw [hc.2, htail.2.1], htail.2.2⟩

theorem IterMut.run_congr_mut {T : Type} (cs : List IterCall) (v1 v2 : Vec T) (r : Rng)
    (hg : v1.get = v2.get) :
    (IterMut.run ⟨v1, r⟩ cs).1 = (IterMut.run ⟨v2, r⟩ cs).1 ∧
      (IterMut.run ⟨v1, r⟩ cs).2.1 = (IterMut.run ⟨v2, r⟩ cs).2.1 ∧
      (IterMut.run ⟨v1, r⟩ cs).2.2.range = (IterMut.run ⟨v2, r⟩ cs).2.2.range := by
  induction cs generalizing r with
  | nil => exact ⟨rfl, rfl, rfl⟩
  | cons c cs ih =>
    rw [IterMut.run_cons_mut, IterMut.run_cons_mut]
    have h1 := (IterMut.step_spec_mut ⟨v1, r⟩ c).1
    have h2 := (IterMut.step_spec_mut ⟨v2, r⟩ c).1
    have hc := IterMut.step_congr_mut v1 v2 r c hg
    have htail := ih (c.rngStep r).2
    rw [h1, h2]
    exact ⟨by rw [hc.1, htail.1], by rw [hc.2, htail.2.1], htail.2.2⟩

end NearSdk

namespace NearSdkClaims

open NearSdk

/-- C1: For every IterMut instance and every finite sequence of
next/next_back/nth/nth_back calls on it, the multiset of logical indices
it resolves through `Vector::get_mut` contains no index twice: the front
and back cursors of the captured range only move toward each other and
each resolved index is excluded from the remaining range before the
reference is handed out, so no two yielded mutable references ever refer
to the same slot. -/
theorem C1_iterMut_never_resolves_an_index_twice {T : Type} (it : IterMut T)
    (cs : List IterCall) : (IterMut.run it cs).2.1.Nodup :=
  IterMut.run_resolved_nodup_mut cs it

/-- C2: For every Vector of length N with every index `i < N` resolvable,
driving Iter to exhaustion with `next` yields exactly N items, resolved at
indices `0, 1, ..., N-1` in that order (leaving the captured range empty),
and driving it to exhaustion with `next_back` yields the same N items at
indices `N-1` down to `0`. -/
theorem C2_iter_drains_in_index_order {T : Type} (vec : Vec T) (v : Nat → T)
    (hv : ∀ i, i < vec.len → vec.get i = some (v i)) :
    Iter.run (Iter.new vec) (List.replicate vec.len .next) =
        ((List.range vec.len).map (fun i => Step.yielded (v i)), List.range vec.len,
          { vec := vec, range := { start := vec.len, stop := vec.len } }) ∧
      Iter.run (Iter.new vec) (List.replicate vec.len .nextBack) =
        (((List.range vec.len).map (fun i => Step.yielded (v i))).reverse,
          (List.range vec.len).reverse,
          { vec := vec, range := { start := 0, stop := 0 } }) := by
  constructor
  · have h1 := Iter.run_replicate_next vec.len 0 (Iter.new vec) v
      (by simp [Iter.new]) (fun i h1 h2 => hv i (by omega))
    simpa [Iter.new, List.range_eq_range'] using h1
  · have h2 := Iter.run_replicate_nextBack vec.len 0 (Iter.new vec) v
      (by simp [Iter.new]) (fun i h1 h2 => hv i (by omega))
    simpa [Iter.new, List.range_eq_range'] using h2

/-- Witness for C2 at a concrete three-element vector. -/
theorem C2_witness :
    (∀ i, i < (Vec.mk 3 (fun i => if i < 3 then some i else none) : Vec Nat).len →
        (Vec.mk 3 (fun i => if i < 3 then some i else none) : Vec Nat).get i = some i) ∧
      (Iter.run (Iter.new (Vec.mk 3 (fun i => if i < 3 then some i else none)))
          (List.replicate 3 .next) =
          ((List.range 3).map (fun i => Step.yielded i), List.range 3,
            { vec := Vec.mk 3 (fun i => if i < 3 then some i else none),
              range := { start := 3, stop := 3 } }) ∧
        Iter.run (Iter.new (Vec.mk 3 (fun i => if i < 3 then some i else none)))
          (List.replicate 3 .nextBack) =
          (((List.range 3).map (fun i => Step.yielded i)).reverse,
            (List.range 3).reverse,
            { vec := Vec.mk 3 (fun i => if i < 3 then some i else none),
              range := { start := 0, stop := 0 } })) :=
  ⟨by decide, C2_iter_drains_in_index_order
    (Vec.mk 3 (fun i => if i < 3 then some i else none)) (fun i => i) (by decide)⟩

/-- C5: For every Iter or IterMut whose captured range is empty (front
cursor equals back cursor), every call of the protocol — `next` and
`next_back` included — returns exhaustion, resolves no index through the
Vector, never panics, and leaves the iterator unchanged, so all
subsequent calls keep returning exhaustion (fused behavior). -/
theorem C5_empty_range_is_fused {T : Type} (it : Iter T) (itM : IterMut T)
    (cs csM : List IterCall)
    (h : it.range.start = it.range.stop) (hM : itM.range.start = itM.range.stop) :
    Iter.run it cs = (List.replicate cs.length .exhausted, [], it) ∧
      IterMut.run itM csM = (List.replicate csM.length .exhausted, [], itM) :=
  ⟨Iter.run_fused cs it h, IterMut.run_fused_mut csM itM hM⟩

/-- Witness for C5 on concrete empty iterators over a nonempty resolver. -/
theorem C5_witness :
    ((Iter.mk (Vec.mk 2 (fun i => if i < 2 then some i else none))
          (Rng.mk 1 1) : Iter Nat).range.start =
        (Iter.mk (Vec.mk 2 (fun i => if i < 2 then some i else none))
          (Rng.mk 1 1) : Iter Nat).range.stop) ∧
      Iter.run (Iter.mk (Vec.mk 2 (fun i => if i < 2 then some i else none)) (Rng.mk 1 1))
          [.next, .nextBack, .nth 0, .nthBack 3] =
        (List.replicate 4 .exhausted, [],
          Iter.mk (Vec.mk 2 (fun i => if i < 2 then some i else none)) (Rng.mk 1 1)) ∧
      IterMut.run (IterMut.mk (Vec.mk 2 (fun i => if i < 2 then some i else none))
          (Rng.mk 0 0)) [.nextBack, .next] =
        (List.replicate 2 .exhausted, [],
          IterMut.mk (Vec.mk 2 (fun i => if i < 2 then some i else none)) (Rng.mk 0 0)) :=
  ⟨rfl,
    (C5_empty_range_is_fused
      (Iter.mk (Vec.mk 2 (fun i => if i < 2 then some i else none)) (Rng.mk 1 1))
      (IterMut.mk (Vec.mk 2 (fun i => if i < 2 then some i else none)) (Rng.mk 0 0))
      [.next, .nextBack, .nth 0, .nthBack 3] [.nextBack, .next] rfl rfl).1,
    (C5_empty_range_is_fused
      (Iter.mk (Vec.mk 2 (fun i => if i < 2 then some i else none)) (Rng.mk 1 1))
      (IterMut.mk (Vec.mk 2 (fun i => if i < 2 then some i else none)) (Rng.mk 0 0))
      [.next, .nextBack, .nth 0, .nthBack 3] [.nextBack, .next] rfl rfl).2⟩

/-- C3: For every reachable state of Iter and IterMut, the reported
length (size_hint lower and upper bound, and count) equals the width of
the current captured range, and that width is the exact number of future
next/next_back calls that produce a value before exhaustion: under the
length invariant, any schedule of `ds.length` front/back single steps
produces `min ds.length width` values — exactly `width` once the schedule
is long enough. -/
theorem C3_reported_length_is_exact {T : Type} (it : Iter T) (itM : IterMut T)
    (ds dsM : List Bool)
    (h : resolvableOn it.vec it.range = true)
    (hM : resolvableOn itM.vec itM.range = true) :
    it.sizeHint = (it.range.len, some it.range.len) ∧
      it.count = it.range.len ∧
      itM.sizeHint = (itM.range.len, some itM.range.len) ∧
      itM.count = itM.range.len ∧
      countYields (Iter.run it (ds.map dirCall)).1 = min ds.length it.remaining ∧
      countYields (IterMut.run itM (dsM.map dirCall)).1 = min dsM.length itM.remaining :=
  ⟨rfl, rfl, rfl, rfl,
    Iter.run_count_yields ds it ((resolvableOn_iff it.vec it.range).mp h),
    IterMut.run_count_yields_mut dsM itM ((resolvableOn_iff itM.vec itM.range).mp hM)⟩

/-- Witness for C3 on a concrete two-element iterator with a length-three
schedule (front, back, front). -/
theorem C3_witness :
    (resolvableOn (Vec.mk 2 (fun i => if i < 2 then some i else none) : Vec Nat)
        (Rng.mk 0 2) = true) ∧
      countYields
          (Iter.run (Iter.mk (Vec.mk 2 (fun i => if i < 2 then some i else none))
            (Rng.mk 0 2)) ([false, true, false].map dirCall)).1 =
        min 3 (Iter.mk (Vec.mk 2 (fun i => if i < 2 then some i else none))
          (Rng.mk 0 2)).remaining ∧
      countYields
          (IterMut.run (IterMut.mk (Vec.mk 2 (fun i => if i < 2 then some i else none))
            (Rng.mk 0 2)) ([true].map dirCall)).1 =
        min 1 (IterMut.mk (Vec.mk 2 (fun i => if i < 2 then some i else none))
          (Rng.mk 0 2)).remaining :=
  ⟨by decide,
    (C3_reported_length_is_exact
      (Iter.mk (Vec.mk 2 (fun i => if i < 2 then some i else none)) (Rng.mk 0 2))
      (IterMut.mk (Vec.mk 2 (fun i => if i < 2 then some i else none)) (Rng.mk 0 2))
      [false, true, false] [true] (by decide) (by decide)).2.2.2.2.1,
    (C3_reported_length_is_exact
      (Iter.mk (Vec.mk 2 (fun i => if i < 2 then some i else none)) (Rng.mk 0 2))
      (IterMut.mk (Vec.mk 2 (fun i => if i < 2 then some i else none)) (Rng.mk 0 2))
      [false, true, false] [true] (by decide) (by decide)).2.2.2.2.2⟩

/-- Concrete two-element vector whose every in-range index resolves. -/
def wGood : Vec Nat := { len := 2, get := fun i => if i < 2 then some i else none }

/-- Concrete vector violating the length invariant: length 1 but no index
resolves. -/
def wBad : Vec Nat := { len := 1, get := fun _ => none }

/-- C4: For every iterator state over a vector whose captured window fully
resolves, `nth(n)` returns the same item and leaves the iterator in the
same state as calling `next()` n+1 times and taking the last result
(exhaustion included), none of which aborts; symmetrically `nth_back(n)`
matches n+1 `next_back()` calls; and `next()` is literally `nth(0)` and
`next_back()` is `nth_back(0)`, for both Iter and IterMut. -/
theorem C4_nth_skips_like_repeated_next {T : Type} (it : Iter T) (itM : IterMut T)
    (n : Nat)
    (h : resolvableOn it.vec it.range = true)
    (hM : resolvableOn itM.vec itM.range = true) :
    (it.next = it.nth 0 ∧ it.nextBack = it.nthBack 0 ∧
        itM.next = itM.nth 0 ∧ itM.nextBack = itM.nthBack 0) ∧
      ((Iter.run it (List.replicate (n + 1) .next)).1.getLast? =
          some (it.nth n).res ∧
        (Iter.run it (List.replicate (n + 1) .next)).2.2 = (it.nth n).it ∧
        ∀ r ∈ (Iter.run it (List.replicate (n + 1) .next)).1,
          ∀ msg, r ≠ .panicked msg) ∧
      ((Iter.run it (List.replicate (n + 1) .nextBack)).1.getLast? =
          some (it.nthBack n).res ∧
        (Iter.run it (List.replicate (n + 1) .nextBack)).2.2 = (it.nthBack n).it ∧
        ∀ r ∈ (Iter.run it (List.replicate (n + 1) .nextBack)).1,
          ∀ msg, r ≠ .panicked msg) ∧
      ((IterMut.run itM (List.replicate (n + 1) .next)).1.getLast? =
          some (itM.nth n).res ∧
        (IterMut.run itM (List.replicate (n + 1) .next)).2.2 = (itM.nth n).it ∧
        ∀ r ∈ (IterMut.run itM (List.replicate (n + 1) .next)).1,
          ∀ msg, r ≠ .panicked msg) ∧
      ((IterMut.run itM (List.replicate (n + 1) .nextBack)).1.getLast? =
          some (itM.nthBack n).res ∧
        (IterMut.run itM (List.replicate (n + 1) .nextBack)).2.2 = (itM.nthBack n).it ∧
        ∀ r ∈ (IterMut.run itM (List.replicate (n + 1) .nextBack)).1,
          ∀ msg, r ≠ .panicked msg) := by
  have hres := (resolvableOn_iff it.vec it.range).mp h
  have hresM := (resolvableOn_iff itM.vec itM.range).mp hM
  exact ⟨⟨rfl, rfl, rfl, rfl⟩,
    ⟨(Iter.run_nexts_last n it).1, (Iter.run_nexts_last n it).2,
      Iter.run_no_panic _ it hres⟩,
    ⟨(Iter.run_nextBacks_last n it).1, (Iter.run_nextBacks_last n it).2,
      Iter.run_no_panic _ it hres⟩,
    ⟨(IterMut.run_nexts_last_mut n itM).1, (IterMut.run_nexts_last_mut n itM).2,
      IterMut.run_no_panic_mut _ itM hresM⟩,
    ⟨(IterMut.run_nextBacks_last_mut n itM).1, (IterMut.run_nextBacks_last_mut n itM).2,
      IterMut.run_no_panic_mut _ itM hresM⟩⟩

/-- Witness for C4 at a concrete two-element iterator, skip count 1:
`nth(1)` agrees with two `next()` calls in value and final state. -/
theorem C4_witness :
    (resolvableOn wGood (Rng.mk 0 2) = true) ∧
      (Iter.run (Iter.mk wGood (Rng.mk 0 2)) (List.replicate 2 .next)).1.getLast? =
          some ((Iter.mk wGood (Rng.mk 0 2)).nth 1).res ∧
        (Iter.run (Iter.mk wGood (Rng.mk 0 2)) (List.replicate 2 .next)).2.2 =
          ((Iter.mk wGood (Rng.mk 0 2)).nth 1).it :=
  ⟨by decide,
    ((C4_nth_skips_like_repeated_next (Iter.mk wGood (Rng.mk 0 2))
      (IterMut.mk wGood (Rng.mk 0 2)) 1 (by decide) (by decide)).2.1).1,
    ((C4_nth_skips_like_repeated_next (Iter.mk wGood (Rng.mk 0 2))
      (IterMut.mk wGood (Rng.mk 0 2)) 1 (by decide) (by decide)).2.1).2.1⟩

/-- C6: If an index inside the captured range resolves to absence, the
call that draws it aborts fatally with the index-out-of-bounds error
(rather than reporting exhaustion or skipping); conversely, when every
index in the range resolves to a present value, no call of any sequence
ever aborts — for both Iter and IterMut. -/
theorem C6_unresolvable_index_aborts {T : Type}
    (it1 it2 : Iter T) (itM1 itM2 : IterMut T) (c1 cM : IterCall)
    (idx idxM : Nat) (cs csM : List IterCall)
    (hidx : (c1.rngStep it1.range).1 = some idx) (hget : it1.vec.get idx = none)
    (hidxM : (cM.rngStep itM1.range).1 = some idxM)
    (hgetM : itM1.vec.get idxM = none)
    (h2 : resolvableOn it2.vec it2.range = true)
    (hM2 : resolvableOn itM2.vec itM2.range = true) :
    (it1.step c1).res = .panicked ERR_INDEX_OUT_OF_BOUNDS ∧
      (itM1.step cM).res = .panicked ERR_INDEX_OUT_OF_BOUNDS ∧
      (∀ r ∈ (Iter.run it2 cs).1, ∀ msg, r ≠ .panicked msg) ∧
      (∀ r ∈ (IterMut.run itM2 csM).1, ∀ msg, r ≠ .panicked msg) :=
  ⟨Iter.step_panics it1 c1 idx hidx hget,
    IterMut.step_panics_mut itM1 cM idxM hidxM hgetM,
    Iter.run_no_panic cs it2 ((resolvableOn_iff it2.vec it2.range).mp h2),
    IterMut.run_no_panic_mut csM itM2 ((resolvableOn_iff itM2.vec itM2.range).mp hM2)⟩

/-- Witness for C6: a length-1 vector with a missing slot panics on
`next`; the fully-resolvable iterator never panics over a mixed call
sequence. -/
theorem C6_witness :
    ((IterCall.next.rngStep (Rng.mk 0 1)).1 = some 0) ∧
      (wBad.get 0 = none) ∧
      ((Iter.mk wBad (Rng.mk 0 1)).step .next).res =
        .panicked ERR_INDEX_OUT_OF_BOUNDS ∧
      (∀ r ∈ (Iter.run (Iter.mk wGood (Rng.mk 0 2))
        [.next, .nthBack 0, .nextBack, .nth 5]).1, ∀ msg, r ≠ .panicked msg) :=
  ⟨by decide, rfl,
    (C6_unresolvable_index_aborts (Iter.mk wBad (Rng.mk 0 1))
      (Iter.mk wGood (Rng.mk 0 2)) (IterMut.mk wBad (Rng.mk 0 1))
      (IterMut.mk wGood (Rng.mk 0 2)) .next .next 0 0
      [.next, .nthBack 0, .nextBack, .nth 5] [.next]
      (by decide) rfl (by decide) rfl (by decide) (by decide)).1,
    (C6_unresolvable_index_aborts (Iter.mk wBad (Rng.mk 0 1))
      (Iter.mk wGood (Rng.mk 0 2)) (IterMut.mk wBad (Rng.mk 0 1))
      (IterMut.mk wGood (Rng.mk 0 2)) .next .next 0 0
      [.next, .nthBack 0, .nextBack, .nth 5] [.next]
      (by decide) rfl (by decide) rfl (by decide) (by decide)).2.2.1⟩

/-- C7: Constructing Iter or IterMut captures the half-open index range
`[0, vec.len())` at the moment of the call, and the iterator's subsequent
behavior (outcomes, resolved indices, range evolution) depends only on
that captured range and the per-index resolver, never on the Vector's
length: two vectors with the same resolver but different lengths drive
any call sequence identically, so later length changes cannot affect an
already-constructed iterator. -/
theorem C7_snapshot_range_semantics {T : Type} (vec v1 v2 : Vec T) (r : Rng)
    (cs : List IterCall) (hg : v1.get = v2.get) :
    (Iter.new vec).range = { start := 0, stop := vec.len } ∧
      (IterMut.new vec).range = { start := 0, stop := vec.len } ∧
      (Iter.run ⟨v1, r⟩ cs).1 = (Iter.run ⟨v2, r⟩ cs).1 ∧
      (Iter.run ⟨v1, r⟩ cs).2.1 = (Iter.run ⟨v2, r⟩ cs).2.1 ∧
      (Iter.run ⟨v1, r⟩ cs).2.2.range = (Iter.run ⟨v2, r⟩ cs).2.2.range ∧
      (IterMut.run ⟨v1, r⟩ cs).1 = (IterMut.run ⟨v2, r⟩ cs).1 ∧
      (IterMut.run ⟨v1, r⟩ cs).2.1 = (IterMut.run ⟨v2, r⟩ cs).2.1 ∧
      (IterMut.run ⟨v1, r⟩ cs).2.2.range = (IterMut.run ⟨v2, r⟩ cs).2.2.range := by
  have h1 := Iter.run_congr cs v1 v2 r hg
  have h2 := IterMut.run_congr_mut cs v1 v2 r hg
  exact ⟨rfl, rfl, h1.1, h1.2.1, h1.2.2, h2.1, h2.2.1, h2.2.2⟩

/-- Witness for C7: shrinking the vector's length from 2 to 0 (same
resolver) leaves a captured-range iterator's outcomes unchanged. -/
theorem C7_witness :
    (wGood.get = (Vec.mk 0 wGood.get).get) ∧
      (Iter.run ⟨wGood, Rng.mk 0 2⟩ [.next, .nextBack]).1 =
        (Iter.run ⟨Vec.mk 0 wGood.get, Rng.mk 0 2⟩ [.next, .nextBack]).1 ∧
      (IterMut.run ⟨wGood, Rng.mk 0 2⟩ [.next, .nextBack]).1 =
        (IterMut.run ⟨Vec.mk 0 wGood.get, Rng.mk 0 2⟩ [.next, .nextBack]).1 :=
  ⟨rfl,
    (C7_snapshot_range_semantics wGood wGood (Vec.mk 0 wGood.get) (Rng.mk 0 2)
      [.next, .nextBack] rfl).2.2.1,
    (C7_snapshot_range_semantics wGood wGood (Vec.mk 0 wGood.get) (Rng.mk 0 2)
      [.next, .nextBack] rfl).2.2.2.2.2.1⟩

end NearSdkClaims

namespace NearSdkUtils

/-- NEAR account identifier; modelled by its string content. -/
abbrev AccountId := String

/-- `require!(cond, message)` (`utils/mod.rs` 67-79): aborts through the
host (`env::panic_str(message)`) when `cond` is false. -/
def require (cond : Bool) (message : String) : Except String Unit :=
  if cond then Except.ok () else Except.error message

/-- `Ownable` (`ownable.rs` 5-9): the stored owner, `None` once
renounced. -/
structure Ownable where
  owner : Option AccountId
deriving DecidableEq, Repr

/-- `Ownable::new` (`ownable.rs` 12-14): owned by the calling account. -/
def Ownable.new (predecessor : AccountId) : Ownable :=
  { owner := some predecessor }

/-- `Ownable::owner` (`ownable.rs` 16-18). -/
def Ownable.getOwner (s : Ownable) : Option AccountId := s.owner

/-- `Ownable::only_owner` (`ownable.rs` 20-25): requires
`Some(env::predecessor_account_id()) == self.owner()`; the caller's
account id is passed explicitly, since the host environment is external
to the embedding. -/
def Ownable.only_owner (s : Ownable) (predecessor : AccountId) :
    Except String Unit :=
  require (some predecessor == s.getOwner) "Ownable: caller is not the owner"

/-- `Ownable::renounce_ownership` (`ownable.rs` 27-30): guard first, then
clear the owner. -/
def Ownable.renounce_ownership (s : Ownable) (predecessor : AccountId) :
    Except String Ownable :=
  match s.only_owner predecessor with
  | .error e => .error e
  | .ok _ => .ok { owner := none }

/-- `Ownable::transfer_ownership` (`ownable.rs` 32-35): guard first, then
install the new owner. -/
def Ownable.transfer_ownership (s : Ownable) (predecessor new_owner : AccountId) :
    Except String Ownable :=
  match s.only_owner predecessor with
  | .error e => .error e
  | .ok _ => .ok { owner := some new_owner }

/-- One external call to the Ownable interface, tagged with its caller. -/
inductive OwnCall where
  | onlyOwner (predecessor : AccountId)
  | transfer (predecessor new_owner : AccountId)
  | renounce (predecessor : AccountId)
deriving DecidableEq, Repr

/-- Effect of one call on the stored state: a panicking call aborts its
whole transaction, so the state is unchanged (spec section 5). -/
def Ownable.apply (s : Ownable) (c : OwnCall) : Ownable :=
  match c with
  | .onlyOwner _ => s
  | .transfer p n =>
    match s.transfer_ownership p n with
    | .ok s2 => s2
    | .error _ => s
  | .renounce p =>
    match s.renounce_ownership p with
    | .ok s2 => s2
    | .error _ => s

/-- Effect of a call sequence on the stored state. -/
def Ownable.applyAll (s : Ownable) (cs : List OwnCall) : Ownable :=
  cs.foldl Ownable.apply s

theorem Ownable.only_owner_none (s : Ownable) (p : AccountId)
    (h : s.owner = none) :
    s.only_owner p = .error "Ownable: caller is not the owner" := by
  unfold Ownable.only_owner Ownable.getOwner require
  rw [h]
  rfl

theorem Ownable.apply_none (s : Ownable) (c : OwnCall) (h : s.owner = none) :
    Ownable.apply s c = s := by
  cases c with
  | onlyOwner p => rfl
  | transfer p n =>
    simp only [Ownable.apply]
    unfold Ownable.transfer_ownership
    rw [Ownable.only_owner_none s p h]
  | renounce p =>
    simp only [Ownable.apply]
    unfold Ownable.renounce_ownership
    rw [Ownable.only_owner_none s p h]

/-- Modelled from the spec: the host's promise-result interface (spec
section 1 lists transaction/call plumbing as an external collaborator):
a callback's i-th promise result is pending, successful with a byte
payload, or failed. -/
inductive PromiseResult where
  | notReady
  | successful (data : List Nat)
  | failed
deriving DecidableEq, Repr

/-- Modelled from the spec: the callback environment the helpers read,
`env::promise_results_count()` and `env::promise_result(i)`. -/
structure PromiseEnv where
  promise_results_count : Nat
  promise_result : Nat → PromiseResult

/-- `promise_result_as_success` (`utils/mod.rs` 97-105). -/
def promise_result_as_success (e : PromiseEnv) :
    Except String (Option (List Nat)) :=
  match require (e.promise_results_count == 1)
      "Contract expected a result on the callback" with
  | .error msg => .error msg
  | .ok _ =>
    match e.promise_result 0 with
    | .successful result => .ok (some result)
    | _ => .ok none

/-- `is_promise_success` (`utils/mod.rs` 91-95): whether
`promise_result_as_success` returns a payload; its panic propagates. -/
def is_promise_success (e : PromiseEnv) : Except String Bool :=
  match promise_result_as_success e with
  | .error msg => .error msg
  | .ok r => .ok r.isSome

end NearSdkUtils

namespace NearStandardsClaims

open NearSdkUtils

/-- C8: Once an Ownable's owner field is None (reachable only via
renounce_ownership), no sequence of calls to only_owner,
transfer_ownership, or renounce_ownership by any caller ever makes owner
Some again: only_owner compares `Some(predecessor)` — always a `Some` —
against the `None` owner, so every guarded call panics forever and the
aborted transactions leave the state untouched. -/
theorem C8_renounced_ownership_is_permanent (s : Ownable) (cs : List OwnCall)
    (h : s.owner = none) :
    Ownable.applyAll s cs = s ∧
      (Ownable.applyAll s cs).owner = none ∧
      (∀ p, s.only_owner p = .error "Ownable: caller is not the owner") ∧
      (∀ p n, s.transfer_ownership p n =
        .error "Ownable: caller is not the owner") ∧
      (∀ p, s.renounce_ownership p =
        .error "Ownable: caller is not the owner") := by
  have happly : Ownable.applyAll s cs = s := by
    induction cs with
    | nil => rfl
    | cons c cs ih =>
      unfold Ownable.applyAll at ih ⊢
      rw [List.foldl_cons, Ownable.apply_none s c h]
      exact ih
  refine ⟨happly, by rw [happly, h],
    fun p => Ownable.only_owner_none s p h, ?_, ?_⟩
  · intro p n
    unfold Ownable.transfer_ownership
    rw [Ownable.only_owner_none s p h]
  · intro p
    unfold Ownable.renounce_ownership
    rw [Ownable.only_owner_none s p h]

/-- Witness for C8: a renounced state survives a transfer attempt, a
renounce attempt and an owner check, and the transfer attempt panics. -/
theorem C8_witness :
    ((Ownable.mk none).owner = none) ∧
      Ownable.applyAll (Ownable.mk none)
          [.transfer "alice" "bob", .renounce "alice", .onlyOwner "carol"] =
        Ownable.mk none ∧
      (Ownable.mk none).transfer_ownership "alice" "bob" =
        .error "Ownable: caller is not the owner" :=
  ⟨rfl,
    (C8_renounced_ownership_is_permanent (Ownable.mk none)
      [.transfer "alice" "bob", .renounce "alice", .onlyOwner "carol"] rfl).1,
    (C8_renounced_ownership_is_permanent (Ownable.mk none)
      [.transfer "alice" "bob", .renounce "alice", .onlyOwner "carol"]
      rfl).2.2.2.1 "alice" "bob"⟩

/-- C9: transfer_ownership and renounce_ownership panic exactly when
`Some(predecessor)` differs from the current owner; the require check runs
before any mutation, so a panicking call leaves the state unchanged, and a
successful call sets owner to `Some(new_owner)` (respectively `None`),
touching nothing else of the one-field state. -/
theorem C9_guard_runs_before_mutation (s : Ownable) (p n : AccountId) :
    (s.transfer_ownership p n =
        if some p = s.owner then .ok { owner := some n }
        else .error "Ownable: caller is not the owner") ∧
      (s.renounce_ownership p =
        if some p = s.owner then .ok { owner := none }
        else .error "Ownable: caller is not the owner") ∧
      ((s.transfer_ownership p n).isOk ↔ some p = s.owner) ∧
      ((s.renounce_ownership p).isOk ↔ some p = s.owner) ∧
      (Ownable.apply s (.transfer p n) =
        if some p = s.owner then { owner := some n } else s) ∧
      (Ownable.apply s (.renounce p) =
        if some p = s.owner then { owner := none } else s) := by
  by_cases hc : some p = s.owner
  · have hoo : s.only_owner p = .ok () := by
      unfold Ownable.only_owner Ownable.getOwner require
      rw [beq_iff_eq.mpr hc]
      rfl
    refine ⟨?_, ?_, ?_, ?_, ?_, ?_⟩ <;>
      simp [Ownable.transfer_ownership, Ownable.renounce_ownership,
        Ownable.apply, hoo, hc, Except.isOk, Except.toBool]
  · have hoo : s.only_owner p = .error "Ownable: caller is not the owner" := by
      unfold Ownable.only_owner Ownable.getOwner require
      rw [beq_eq_false_iff_ne.mpr hc]
      rfl
    refine ⟨?_, ?_, ?_, ?_, ?_, ?_⟩ <;>
      simp [Ownable.transfer_ownership, Ownable.renounce_ownership,
        Ownable.apply, hoo, hc, Except.isOk, Except.toBool]

/-- C10: promise_result_as_success panics exactly when the environment's
promise_results_count() is not 1; when it returns, the payload is
`Some(bytes)` exactly when promise_result(0) is Successful(bytes) and
`None` for every other variant; and is_promise_success returns true
exactly when promise_result_as_success returns Some (panics propagate). -/
theorem C10_promise_result_helpers (e : PromiseEnv) :
    (promise_result_as_success e =
        if e.promise_results_count = 1 then
          .ok (match e.promise_result 0 with
            | .successful result => some result
            | _ => none)
        else .error "Contract expected a result on the callback") ∧
      ((promise_result_as_success e).isOk ↔ e.promise_results_count = 1) ∧
      (∀ bytes, promise_result_as_success e = .ok (some bytes) ↔
        e.promise_results_count = 1 ∧ e.promise_result 0 = .successful bytes) ∧
      (is_promise_success e = .ok true ↔
        ∃ bytes, promise_result_as_success e = .ok (some bytes)) ∧
      (is_promise_success e = .error "Contract expected a result on the callback" ↔
        e.promise_results_count ≠ 1) := by
  by_cases h1 : e.promise_results_count = 1
  · have hb : (e.promise_results_count == 1) = true := beq_iff_eq.mpr h1
    rcases hr : e.promise_result 0 with _ | bs | _ <;>
      simp [promise_result_as_success, is_promise_success, require, hb, h1, hr,
        Except.isOk, Except.toBool]
  · have hb : (e.promise_results_count == 1) = false := beq_eq_false_iff_ne.mpr h1
    simp [promise_result_as_success, is_promise_success, require, hb, h1,
      Except.isOk, Except.toBool]

end NearStandardsClaims

section Sanity

open NearSdk

example :
    (Iter.run (Iter.new { len := 3, get := fun i => if i < 3 then some i else none })
      [.next, .next, .next, .next]).1 =
    [.yielded 0, .yielded 1, .yielded 2, .exhausted] := by decide

example :
    (Iter.run (Iter.new { len := 3, get := fun i => if i < 3 then some i else none })
      [.nextBack, .nextBack, .nextBack, .nextBack]).2.1 = [2, 1, 0] := by decide

example :
    (IterMut.run (IterMut.new { len := 4, get := fun i => if i < 4 then some i else none })
      [.next, .nthBack 1, .next, .nextBack]).2.1 = [0, 2, 1] := by decide

end Sanity
